import Mathlib

/-!
Shallow embedding of `src/index.js` of audio-buffer-utils: a small library of
operations over multi-channel audio buffers.  Samples are JavaScript numbers,
modelled as rationals extended with a NaN element; a buffer holds one sample
list per channel together with a sample rate.  Each definition below is a
direct translation of the corresponding function of `src/index.js`; the
external `audio-buffer` constructor (a collaborator of the library, not part
of its source) is modelled from the specification where it is needed.
-/

namespace AudioBufferUtils

/-- A sample value: a JavaScript number stored in a channel's Float32Array,
either NaN or a numeric value (modelled as a rational). -/
inductive Sample where
  | nan : Sample
  | val : ℚ → Sample
deriving DecidableEq

/-- JavaScript strict equality on an optionally-present sample, where `none`
models an out-of-range (`undefined`) read: `undefined` equals only
`undefined`, NaN equals nothing (not even itself), numbers compare
numerically. -/
def jsEqV : Option Sample → Option Sample → Bool
  | none, none => true
  | some (Sample.val a), some (Sample.val b) => if a = b then true else false
  | _, _ => false

/-- JavaScript `x || 0` applied to an optionally-present sample read from a
channel array (`none` models an out-of-range / `undefined` read): the falsy
values `undefined`, NaN and `0` give `0`, any other number gives itself. -/
def jsOrZero : Option Sample → Sample
  | none => Sample.val 0
  | some Sample.nan => Sample.val 0
  | some (Sample.val a) => if a = 0 then Sample.val 0 else Sample.val a

/-- A multi-channel audio buffer: one sample list per channel plus a sample
rate.  `numberOfChannels` and `length` are derived from the channel data; the
external audio-buffer constructor keeps them consistent with the data it is
given. -/
structure AudioBuffer where
  data : List (List Sample)
  sampleRate : ℚ
deriving DecidableEq

def AudioBuffer.numberOfChannels (b : AudioBuffer) : Nat :=
  b.data.length

def AudioBuffer.length (b : AudioBuffer) : Nat :=
  (b.data.getD 0 []).length

def AudioBuffer.getChannelData (b : AudioBuffer) (channel : Nat) : List Sample :=
  b.data.getD channel []

/-- Well-formedness: every channel holds exactly `length` samples (the stated
invariant of the Buffer collaborator). -/
def AudioBuffer.wf (b : AudioBuffer) : Bool :=
  b.data.all (fun ch => ch.length == b.length)

theorem wf_channel_length {b : AudioBuffer} (hb : b.wf = true) {ch : Nat}
    (hch : ch < b.numberOfChannels) : (b.getChannelData ch).length = b.length := by
  have h := (List.all_eq_true).mp hb (b.data.getD ch [])
  have hmem : b.data.getD ch [] ∈ b.data := by
    rw [List.getD_eq_getElem?_getD, List.getElem?_eq_getElem hch, Option.getD_some]
    exact List.getElem_mem hch
  have h2 := h hmem
  simp only [beq_iff_eq] at h2
  simpa [AudioBuffer.getChannelData] using h2

/-- One channel of `fill`'s constant (non-callable) branch of src/index.js:
`var l = buffer.length; while (l--) data[l] = fn;` — a descending loop
writing the constant at indices `len-1, …, 0`. -/
def fillConstChan (len : Nat) (v : Sample) (chan : List Sample) : List Sample :=
  (List.range len).foldr (fun l d => d.set l v) chan

/-- Function `fill(buffer, fn)` of src/index.js, for a constant (non-function) second
argument: every channel is overwritten with the constant by a descending
loop bounded by `buffer.length`, and the mutated buffer is returned.  (The
callable branch of the source is not exercised by the claims below.) -/
def fill (buffer : AudioBuffer) (v : Sample) : AudioBuffer :=
  { data := buffer.data.map (fun ch => fillConstChan buffer.length v ch),
    sampleRate := buffer.sampleRate }

/-- Function `zero(buffer)` of src/index.js: `fill(buffer, 0)`. -/
def zero (buffer : AudioBuffer) : AudioBuffer :=
  fill buffer (Sample.val 0)

theorem fillConstChan_getElem? (v : Sample) :
    ∀ (n : Nat) (d : List Sample) (j : Nat),
      (fillConstChan n v d)[j]? = if j < n ∧ j < d.length then some v else d[j]? := by
  intro n
  induction n with
  | zero =>
    intro d j
    simp [fillConstChan]
  | succ n ih =>
    intro d j
    have hstep : fillConstChan (n + 1) v d = fillConstChan n v (d.set n v) := by
      simp [fillConstChan, List.range_succ, List.foldr_append]
    rw [hstep, ih (d.set n v) j, List.length_set, List.getElem?_set]
    by_cases h1 : j < n
    · by_cases h2 : j < d.length
      · simp [h1, h2, Nat.lt_succ_of_lt h1]
      · simp [h1, h2]
        intro hnj
        omega
    · by_cases hj : n = j
      · subst hj
        by_cases h2 : n < d.length
        · simp [h2, Nat.lt_succ_self]
        · simp [h1, h2]
          omega
      · have : ¬ j < n + 1 := by omega
        simp [h1, hj, this]

theorem fillConstChan_length (v : Sample) (n : Nat) :
    ∀ (d : List Sample), (fillConstChan n v d).length = d.length := by
  induction n with
  | zero => intro d; simp [fillConstChan]
  | succ n ih =>
    intro d
    have hstep : fillConstChan (n + 1) v d = fillConstChan n v (d.set n v) := by
      simp [fillConstChan, List.range_succ, List.foldr_append]
    rw [hstep, ih (d.set n v), List.length_set]

theorem fill_getChannelData (b : AudioBuffer) (v : Sample) (ch : Nat)
    (hch : ch < b.numberOfChannels) :
    (fill b v).getChannelData ch = fillConstChan b.length v (b.getChannelData ch) := by
  simp only [fill, AudioBuffer.getChannelData, AudioBuffer.numberOfChannels] at *
  rw [List.getD_eq_getElem?_getD, List.getD_eq_getElem?_getD, List.getElem?_map]
  rw [List.getElem?_eq_getElem hch]
  simp

theorem fill_length (b : AudioBuffer) (v : Sample) : (fill b v).length = b.length := by
  simp only [fill, AudioBuffer.length]
  cases hd : b.data with
  | nil => simp
  | cons x xs => simp [fillConstChan_length]

/-- C9: for every well-formed buffer `b` and constant sample `c`, `fill b c`
keeps the buffer's shape (sample rate, channel count, length) and sets every
sample in every channel to `c` — the implementation's descending loop is
externally a flat fill — and after `zero b` every sample in every channel
equals `0`. -/
theorem c9_fill_constant_flat (b : AudioBuffer) (c : Sample) (hb : b.wf = true) :
    (fill b c).sampleRate = b.sampleRate ∧
    (fill b c).numberOfChannels = b.numberOfChannels ∧
    (fill b c).length = b.length ∧
    (∀ ch, ch < b.numberOfChannels → ∀ i, i < b.length →
      ((fill b c).getChannelData ch)[i]? = some c) ∧
    (∀ ch, ch < b.numberOfChannels → ∀ i, i < b.length →
      ((zero b).getChannelData ch)[i]? = some (Sample.val 0)) := by
  have hfill : ∀ (v : Sample), ∀ ch, ch < b.numberOfChannels → ∀ i, i < b.length →
      ((fill b v).getChannelData ch)[i]? = some v := by
    intro v ch hch i hi
    rw [fill_getChannelData b v ch hch, fillConstChan_getElem?]
    have hlen : (b.getChannelData ch).length = b.length := wf_channel_length hb hch
    simp [hlen, hi]
  refine ⟨rfl, ?_, fill_length b c, hfill c, ?_⟩
  · simp [fill, AudioBuffer.numberOfChannels]
  · intro ch hch i hi
    exact hfill (Sample.val 0) ch hch i hi

theorem c9_fill_constant_flat_witness :
    (AudioBuffer.wf { data := [[Sample.val 3, Sample.val 4]], sampleRate := 44100 } = true) ∧
    ((fill { data := [[Sample.val 3, Sample.val 4]], sampleRate := 44100 } (Sample.val 7)).sampleRate
        = ({ data := [[Sample.val 3, Sample.val 4]], sampleRate := 44100 } : AudioBuffer).sampleRate ∧
      (fill { data := [[Sample.val 3, Sample.val 4]], sampleRate := 44100 } (Sample.val 7)).numberOfChannels
        = ({ data := [[Sample.val 3, Sample.val 4]], sampleRate := 44100 } : AudioBuffer).numberOfChannels ∧
      (fill { data := [[Sample.val 3, Sample.val 4]], sampleRate := 44100 } (Sample.val 7)).length
        = ({ data := [[Sample.val 3, Sample.val 4]], sampleRate := 44100 } : AudioBuffer).length ∧
      (∀ ch, ch < ({ data := [[Sample.val 3, Sample.val 4]], sampleRate := 44100 } : AudioBuffer).numberOfChannels →
        ∀ i, i < ({ data := [[Sample.val 3, Sample.val 4]], sampleRate := 44100 } : AudioBuffer).length →
          ((fill { data := [[Sample.val 3, Sample.val 4]], sampleRate := 44100 } (Sample.val 7)).getChannelData ch)[i]?
            = some (Sample.val 7)) ∧
      (∀ ch, ch < ({ data := [[Sample.val 3, Sample.val 4]], sampleRate := 44100 } : AudioBuffer).numberOfChannels →
        ∀ i, i < ({ data := [[Sample.val 3, Sample.val 4]], sampleRate := 44100 } : AudioBuffer).length →
          ((zero { data := [[Sample.val 3, Sample.val 4]], sampleRate := 44100 }).getChannelData ch)[i]?
            = some (Sample.val 0))) :=
  ⟨by decide,
   c9_fill_constant_flat { data := [[Sample.val 3, Sample.val 4]], sampleRate := 44100 }
     (Sample.val 7) (by decide)⟩

/-- The two-buffer comparison of `equal` of src/index.js: the lengths and the
channel counts must coincide, then every channel is compared index by index
(channel-major, index-minor) with JavaScript strict equality, the loop bound
being the length of the first buffer's channel array. -/
def equalPair (a b : AudioBuffer) : Bool :=
  if a.length ≠ b.length ∨ a.numberOfChannels ≠ b.numberOfChannels then false
  else
    (List.range a.numberOfChannels).all (fun channel =>
      (List.range (a.getChannelData channel).length).all (fun i =>
        jsEqV ((a.getChannelData channel)[i]?) ((b.getChannelData channel)[i]?)))

/-- Function `equal(bufferA, bufferB, ...)` of src/index.js: with more than two
arguments, every adjacent pair of the argument list is compared. -/
def equal : AudioBuffer → AudioBuffer → List AudioBuffer → Bool
  | a, b, [] => equalPair a b
  | a, b, c :: rest => equalPair a b && equal b c rest

def tb123 : AudioBuffer :=
  { data := [[Sample.val 1, Sample.val 2, Sample.val 3]], sampleRate := 44100 }

def tb124 : AudioBuffer :=
  { data := [[Sample.val 1, Sample.val 2, Sample.val 4]], sampleRate := 44100 }

def tb1234 : AudioBuffer :=
  { data := [[Sample.val 1, Sample.val 2, Sample.val 3, Sample.val 4]], sampleRate := 44100 }

/-- C7: two buffers are `equal` exactly when they have identical length,
identical channel count, and strictly equal samples at every channel and
every index (no tolerance; NaN compares unequal as in JavaScript); with more
than two arguments `equal` is the conjunction of the adjacent pairwise
comparisons. -/
theorem c7_equal_iff (a b c : AudioBuffer) (rest : List AudioBuffer)
    (ha : a.wf = true) :
    (equalPair a b = true ↔
      (a.length = b.length ∧ a.numberOfChannels = b.numberOfChannels ∧
        ∀ ch, ch < a.numberOfChannels → ∀ i, i < a.length →
          jsEqV ((a.getChannelData ch)[i]?) ((b.getChannelData ch)[i]?) = true)) ∧
    equal a b (c :: rest) = (equalPair a b && equal b c rest) := by
  constructor
  · unfold equalPair
    by_cases hc : a.length ≠ b.length ∨ a.numberOfChannels ≠ b.numberOfChannels
    · rw [if_pos hc]
      constructor
      · intro h; simp at h
      · rintro ⟨h1, h2, -⟩
        rcases hc with hc | hc
        · exact absurd h1 hc
        · exact absurd h2 hc
    · rw [if_neg hc]
      push_neg at hc
      obtain ⟨h1, h2⟩ := hc
      rw [List.all_eq_true]
      constructor
      · intro h
        refine ⟨h1, h2, ?_⟩
        intro ch hch i hi
        have hch' := h ch (List.mem_range.mpr hch)
        rw [List.all_eq_true] at hch'
        refine hch' i (List.mem_range.mpr ?_)
        rw [wf_channel_length ha hch]
        exact hi
      · rintro ⟨-, -, h3⟩
        intro ch hmem
        rw [List.all_eq_true]
        intro i hi
        have hch := List.mem_range.mp hmem
        refine h3 ch hch i ?_
        rw [← wf_channel_length ha hch]
        exact List.mem_range.mp hi
  · rfl

theorem c7_equal_iff_witness :
    (AudioBuffer.wf tb123 = true) ∧
    ((equalPair tb123 tb123 = true ↔
      (tb123.length = tb123.length ∧ tb123.numberOfChannels = tb123.numberOfChannels ∧
        ∀ ch, ch < tb123.numberOfChannels → ∀ i, i < tb123.length →
          jsEqV ((tb123.getChannelData ch)[i]?) ((tb123.getChannelData ch)[i]?) = true)) ∧
      equal tb123 tb123 (tb124 :: []) = (equalPair tb123 tb123 && equal tb123 tb124 [])) :=
  ⟨by decide, c7_equal_iff tb123 tb123 tb124 [] (by decide)⟩

/-- Index normalisation of JavaScript `TypedArray.prototype.slice`: a
negative index counts from the end of the array (clamped below at 0), a
nonnegative index is clamped above at the length. -/
def jsSliceIdx (len : Nat) (i : Int) : Nat :=
  if i < 0 then ((len : Int) + i).toNat else min i.toNat len

/-- The effective end index of a JavaScript slice: an omitted `end`
(`none`) means the length, otherwise the index is normalised. -/
def sliceStop (len : Nat) (stop : Option Int) : Nat :=
  match stop with
  | none => len
  | some e => jsSliceIdx len e

/-- One channel of `slice` of src/index.js: JavaScript
`data.slice(start, end)`. -/
def jsSlice (xs : List Sample) (start : Int) (stop : Option Int) : List Sample :=
  let k := jsSliceIdx xs.length start
  let f := sliceStop xs.length stop
  (xs.drop k).take (f - k)

/-- Function `slice(buffer, start, end)` of src/index.js: each channel is sliced with
JavaScript slice semantics and a new buffer is built from the slices at the
same channel count and sample rate.  The pair's second component is the
post-call state of the source buffer: the source's channel arrays are only
read (JavaScript slice allocates a fresh array), so the source is
unchanged. -/
def slice (buffer : AudioBuffer) (start : Int) (stop : Option Int) :
    AudioBuffer × AudioBuffer :=
  ({ data := (List.range buffer.numberOfChannels).map
        (fun channel => jsSlice (buffer.getChannelData channel) start stop),
     sampleRate := buffer.sampleRate },
   buffer)

theorem jsSliceIdx_le (len : Nat) (i : Int) : jsSliceIdx len i ≤ len := by
  unfold jsSliceIdx
  split
  · omega
  · exact Nat.min_le_right _ _

theorem sliceStop_le (len : Nat) (stop : Option Int) : sliceStop len stop ≤ len := by
  cases stop with
  | none => exact Nat.le_refl _
  | some e => exact jsSliceIdx_le len e

theorem getChannelData_range_map (f : Nat → List Sample) (n : Nat) (rate : ℚ)
    (ch : Nat) (hch : ch < n) :
    AudioBuffer.getChannelData { data := (List.range n).map f, sampleRate := rate } ch
      = f ch := by
  unfold AudioBuffer.getChannelData
  rw [List.getD_eq_getElem?_getD, List.getElem?_map, List.getElem?_range hch]
  rfl

theorem jsSlice_length (xs : List Sample) (start : Int) (stop : Option Int) :
    (jsSlice xs start stop).length
      = sliceStop xs.length stop - jsSliceIdx xs.length start := by
  unfold jsSlice
  rw [List.length_take, List.length_drop]
  have h := sliceStop_le xs.length stop
  omega

theorem jsSlice_getElem? (xs : List Sample) (start : Int) (stop : Option Int)
    (i : Nat) (hi : i < sliceStop xs.length stop - jsSliceIdx xs.length start) :
    (jsSlice xs start stop)[i]? = xs[jsSliceIdx xs.length start + i]? := by
  unfold jsSlice
  rw [List.getElem?_take, if_pos hi, List.getElem?_drop]

/-- C6 (amended): `slice(buffer, start, end)` keeps the channel count and
sample rate, does not modify the source, and every channel of the result is
the sub-range `[start', end')` of the source channel, where a negative index
counts from the end of the channel (clamped below at 0), an index past the
length is clamped to the length, and an omitted `end` means the length. -/
theorem c6_slice_subrange (b : AudioBuffer) (start : Int) (stop : Option Int)
    (hb : b.wf = true) :
    (slice b start stop).1.numberOfChannels = b.numberOfChannels ∧
    (slice b start stop).1.sampleRate = b.sampleRate ∧
    (slice b start stop).2 = b ∧
    (∀ ch, ch < b.numberOfChannels →
      ((slice b start stop).1.getChannelData ch).length
          = sliceStop b.length stop - jsSliceIdx b.length start ∧
      ∀ i, i < sliceStop b.length stop - jsSliceIdx b.length start →
        ((slice b start stop).1.getChannelData ch)[i]?
          = (b.getChannelData ch)[jsSliceIdx b.length start + i]?) := by
  refine ⟨by simp [slice, AudioBuffer.numberOfChannels], rfl, rfl, ?_⟩
  intro ch hch
  have hdata : (slice b start stop).1.getChannelData ch
      = jsSlice (b.getChannelData ch) start stop :=
    getChannelData_range_map _ _ _ ch hch
  have hlen : (b.getChannelData ch).length = b.length := wf_channel_length hb hch
  constructor
  · rw [hdata, jsSlice_length, hlen]
  · intro i hi
    rw [hdata, ← hlen] at *
    exact jsSlice_getElem? (b.getChannelData ch) start stop i hi

theorem c6_slice_subrange_witness :
    (AudioBuffer.wf tb124 = true) ∧
    ((slice tb124 1 (some 3)).1.numberOfChannels = tb124.numberOfChannels ∧
    (slice tb124 1 (some 3)).1.sampleRate = tb124.sampleRate ∧
    (slice tb124 1 (some 3)).2 = tb124 ∧
    (∀ ch, ch < tb124.numberOfChannels →
      ((slice tb124 1 (some 3)).1.getChannelData ch).length
          = sliceStop tb124.length (some 3) - jsSliceIdx tb124.length 1 ∧
      ∀ i, i < sliceStop tb124.length (some 3) - jsSliceIdx tb124.length 1 →
        ((slice tb124 1 (some 3)).1.getChannelData ch)[i]?
          = (tb124.getChannelData ch)[jsSliceIdx tb124.length 1 + i]?)) :=
  ⟨by decide, c6_slice_subrange tb124 1 (some 3) (by decide)⟩

/-- C6 counterexample: the claim reads a negative `end` as "to the end", but
JavaScript slice counts a negative `end` from the end of the array:
`slice(b, 0, -1)` of a 4-sample channel keeps 3 samples, not all 4. -/
theorem c6_slice_counterexample :
    ((slice tb1234 0 (some (-1))).1.getChannelData 0
      = [Sample.val 1, Sample.val 2, Sample.val 3]) ∧
    ¬ ((slice tb1234 0 (some (-1))).1.getChannelData 0
      = [Sample.val 1, Sample.val 2, Sample.val 3, Sample.val 4]) := by
  constructor
  · decide
  · decide

/-- Function `map(buffer, fn)` of src/index.js: for each channel in ascending order a
fresh array is produced by JavaScript `Float32Array.prototype.map`, the
producer receiving the current value, its channel, its index and the array
of already-built channel arrays; a new buffer with the same channel count
and sample rate is constructed from the fresh arrays.  The pair's second
component is the post-call state of the source buffer: the source's channel
data is only read, never written, so the source is unchanged. -/
def map (buffer : AudioBuffer)
    (fn : Sample → Nat → Nat → List (List Sample) → Sample) :
    AudioBuffer × AudioBuffer :=
  ({ data := (List.range buffer.numberOfChannels).foldl
        (fun data channel =>
          data ++ [(buffer.getChannelData channel).enum.map
            (fun p => fn p.2 channel p.1 data)])
        [],
     sampleRate := buffer.sampleRate },
   buffer)

theorem map_foldl_length (b : AudioBuffer)
    (fn : Sample → Nat → Nat → List (List Sample) → Sample) :
    ∀ (l : List Nat) (acc : List (List Sample)),
      (l.foldl
        (fun data channel =>
          data ++ [(b.getChannelData channel).enum.map
            (fun p => fn p.2 channel p.1 data)])
        acc).length = acc.length + l.length := by
  intro l
  induction l with
  | nil => intro acc; simp
  | cons x xs ih =>
    intro acc
    rw [List.foldl_cons, ih]
    simp
    omega

theorem map_foldl_head (b : AudioBuffer)
    (fn : Sample → Nat → Nat → List (List Sample) → Sample) :
    ∀ (l : List Nat) (acc : List (List Sample)), acc ≠ [] →
      (l.foldl
        (fun data channel =>
          data ++ [(b.getChannelData channel).enum.map
            (fun p => fn p.2 channel p.1 data)])
        acc).getD 0 [] = acc.getD 0 [] := by
  intro l
  induction l with
  | nil => intro acc h; rfl
  | cons x xs ih =>
    intro acc h
    rw [List.foldl_cons, ih _ (by simp)]
    cases acc with
    | nil => exact absurd rfl h
    | cons y ys => rfl

/-- C8: `map b fn` returns a newly built buffer with the same channel count,
length and sample rate as `b`, and the source buffer is unchanged by the
call. -/
theorem c8_map_shape (b : AudioBuffer)
    (fn : Sample → Nat → Nat → List (List Sample) → Sample) :
    (map b fn).1.numberOfChannels = b.numberOfChannels ∧
    (map b fn).1.length = b.length ∧
    (map b fn).1.sampleRate = b.sampleRate ∧
    (map b fn).2 = b := by
  refine ⟨?_, ?_, rfl, rfl⟩
  · show ((List.range b.numberOfChannels).foldl _ []).length = _
    rw [map_foldl_length]
    simp
  · simp only [map, AudioBuffer.length]
    cases hn : b.numberOfChannels with
    | zero =>
      have hd : b.data = [] := by
        have h0 : b.data.length = 0 := hn
        exact List.length_eq_zero.mp h0
      rw [hd]
      simp
    | succ n =>
      rw [List.range_succ_eq_map, List.foldl_cons]
      rw [map_foldl_head b fn _ _ (by simp)]
      simp [AudioBuffer.getChannelData, List.enum_length]

/-- JavaScript `Float32Array.prototype.set(src, offset)`: copy `src` into
the destination starting at `offset`, leaving the rest unchanged. -/
def typedArraySet (dest src : List Sample) (offset : Nat) : List Sample :=
  dest.take offset ++ src ++ dest.drop (offset + src.length)

/-- The two-buffer case of `concat` of src/index.js: channel count and
sample rate are the maxima of the two inputs', the length is the sum; each
result channel starts as a zero Float32Array of the summed length into which
buffer A's channel (when A has it) is copied at offset 0 and buffer B's
channel (when B has it) at offset `bufferA.length`. -/
def concatPair (bufferA bufferB : AudioBuffer) : AudioBuffer :=
  let channels := max bufferA.numberOfChannels bufferB.numberOfChannels
  let len := bufferA.length + bufferB.length
  let rate := max bufferA.sampleRate bufferB.sampleRate
  { data := (List.range channels).map (fun channel =>
      let cd0 := List.replicate len (Sample.val 0)
      let cd1 := if channel < bufferA.numberOfChannels
        then typedArraySet cd0 (bufferA.getChannelData channel) 0 else cd0
      if channel < bufferB.numberOfChannels
        then typedArraySet cd1 (bufferB.getChannelData channel) bufferA.length
        else cd1),
    sampleRate := rate }

/-- Function `concat(bufferA, bufferB, ...)` of src/index.js: with more than two
arguments the pairwise concatenation is folded from the left over the
argument list. -/
def concat (bufferA bufferB : AudioBuffer) (rest : List AudioBuffer) : AudioBuffer :=
  rest.foldl concatPair (concatPair bufferA bufferB)

theorem concatPair_numberOfChannels (a b : AudioBuffer) :
    (concatPair a b).numberOfChannels = max a.numberOfChannels b.numberOfChannels := by
  show ((List.range (max a.numberOfChannels b.numberOfChannels)).map _).length = _
  rw [List.length_map, List.length_range]

theorem concatPair_sampleRate (a b : AudioBuffer) :
    (concatPair a b).sampleRate = max a.sampleRate b.sampleRate := rfl

theorem concatPair_channel (a b : AudioBuffer) (ha : a.wf = true) (hb : b.wf = true)
    (ch : Nat) (hch : ch < max a.numberOfChannels b.numberOfChannels) :
    (concatPair a b).getChannelData ch
      = (if ch < a.numberOfChannels then a.getChannelData ch
         else List.replicate a.length (Sample.val 0))
        ++ (if ch < b.numberOfChannels then b.getChannelData ch
            else List.replicate b.length (Sample.val 0)) := by
  simp only [concatPair, AudioBuffer.getChannelData]
  rw [List.getD_eq_getElem?_getD, List.getElem?_map, List.getElem?_range hch]
  simp only [Option.map_some', Option.getD_some]
  have h1 : a.length + b.length - a.length = b.length := by omega
  by_cases hA : ch < a.numberOfChannels
  · have haCh : (a.data.getD ch []).length = a.length := wf_channel_length ha hA
    by_cases hB : ch < b.numberOfChannels
    · have hbCh : (b.data.getD ch []).length = b.length := wf_channel_length hb hB
      simp only [hA, hB, if_true, typedArraySet, List.take_zero, List.nil_append,
        Nat.zero_add, haCh, hbCh, List.drop_replicate, h1]
      have h2 : (a.data.getD ch [] ++ List.replicate b.length (Sample.val 0)).take a.length
          = a.data.getD ch [] := by
        rw [← haCh]
        exact List.take_left _ _
      have h3 : (a.data.getD ch [] ++ List.replicate b.length (Sample.val 0)).drop
          (a.length + b.length) = [] := by
        refine List.drop_eq_nil_of_le ?_
        rw [List.length_append, haCh, List.length_replicate]
      rw [h2, h3]
      simp
    · simp only [hA, hB, if_true, if_false, typedArraySet, List.take_zero,
        List.nil_append, Nat.zero_add, haCh, List.drop_replicate, h1]
  · have hB : ch < b.numberOfChannels := by
      rcases lt_max_iff.mp hch with h | h
      · exact absurd h hA
      · exact h
    have hbCh : (b.data.getD ch []).length = b.length := wf_channel_length hb hB
    simp only [hA, hB, if_true, if_false, typedArraySet, hbCh,
      List.take_replicate, List.drop_replicate]
    have h2 : min a.length (a.length + b.length) = a.length := by omega
    have h3 : a.length + b.length - (a.length + b.length) = 0 := by omega
    rw [h2, h3]
    simp

theorem concatPair_length (a b : AudioBuffer) (ha : a.wf = true) (hb : b.wf = true) :
    (concatPair a b).length = a.length + b.length := by
  cases hc : max a.numberOfChannels b.numberOfChannels with
  | zero =>
    obtain ⟨hA, hB⟩ := Nat.max_eq_zero_iff.mp hc
    have hda : a.data = [] := List.length_eq_zero.mp hA
    have hdb : b.data = [] := List.length_eq_zero.mp hB
    show (((List.range (max a.numberOfChannels b.numberOfChannels)).map _).getD 0 []).length = _
    rw [hc]
    simp only [AudioBuffer.length, hda, hdb]
    simp
  | succ n =>
    have h0 : 0 < max a.numberOfChannels b.numberOfChannels := by omega
    have hl : (concatPair a b).length = ((concatPair a b).getChannelData 0).length := rfl
    rw [hl, concatPair_channel a b ha hb 0 h0, List.length_append]
    have la : (if (0:Nat) < a.numberOfChannels then a.getChannelData 0
        else List.replicate a.length (Sample.val 0)).length = a.length := by
      split
      · exact wf_channel_length ha (by assumption)
      · simp
    have lb : (if (0:Nat) < b.numberOfChannels then b.getChannelData 0
        else List.replicate b.length (Sample.val 0)).length = b.length := by
      split
      · exact wf_channel_length hb (by assumption)
      · simp
    rw [la, lb]

/-- C5: pairwise `concat` produces a buffer whose channel count and sample
rate are the maxima of the inputs' and whose length is the sum of their
lengths; each result channel carries buffer A's channel over `[0, a.length)`
and buffer B's channel over `[a.length, a.length + b.length)`, a channel
missing from an input being zero-filled over that input's span; with more
than two arguments the pairwise rule is folded from the left. -/
theorem c5_concat_spec (a b : AudioBuffer) (ha : a.wf = true) (hb : b.wf = true) :
    (concatPair a b).numberOfChannels = max a.numberOfChannels b.numberOfChannels ∧
    (concatPair a b).length = a.length + b.length ∧
    (concatPair a b).sampleRate = max a.sampleRate b.sampleRate ∧
    (∀ ch, ch < max a.numberOfChannels b.numberOfChannels →
      (∀ i, i < a.length →
        ((concatPair a b).getChannelData ch)[i]?
          = if ch < a.numberOfChannels then (a.getChannelData ch)[i]?
            else some (Sample.val 0)) ∧
      (∀ i, a.length ≤ i → i < a.length + b.length →
        ((concatPair a b).getChannelData ch)[i]?
          = if ch < b.numberOfChannels then (b.getChannelData ch)[i - a.length]?
            else some (Sample.val 0))) ∧
    (∀ (c : AudioBuffer) (rest : List AudioBuffer),
      concat a b (c :: rest) = concat (concatPair a b) c rest) := by
  refine ⟨concatPair_numberOfChannels a b, concatPair_length a b ha hb,
    concatPair_sampleRate a b, ?_, fun c rest => rfl⟩
  intro ch hch
  rw [concatPair_channel a b ha hb ch hch]
  have la : (if ch < a.numberOfChannels then a.getChannelData ch
      else List.replicate a.length (Sample.val 0)).length = a.length := by
    split
    · exact wf_channel_length ha (by assumption)
    · simp
  constructor
  · intro i hi
    rw [List.getElem?_append, la, if_pos hi]
    split
    · rfl
    · rw [List.getElem?_replicate, if_pos hi]
  · intro i h1 h2
    rw [List.getElem?_append, la, if_neg (by omega), ]
    split
    · rfl
    · rw [List.getElem?_replicate, if_pos (by omega)]

def tb12 : AudioBuffer :=
  { data := [[Sample.val 1, Sample.val 2]], sampleRate := 44100 }

def tb345 : AudioBuffer :=
  { data := [[Sample.val 3, Sample.val 4, Sample.val 5]], sampleRate := 44100 }

theorem c5_concat_spec_witness :
    (AudioBuffer.wf tb12 = true) ∧ (AudioBuffer.wf tb345 = true) ∧
    ((concatPair tb12 tb345).numberOfChannels
        = max tb12.numberOfChannels tb345.numberOfChannels ∧
    (concatPair tb12 tb345).length = tb12.length + tb345.length ∧
    (concatPair tb12 tb345).sampleRate = max tb12.sampleRate tb345.sampleRate ∧
    (∀ ch, ch < max tb12.numberOfChannels tb345.numberOfChannels →
      (∀ i, i < tb12.length →
        ((concatPair tb12 tb345).getChannelData ch)[i]?
          = if ch < tb12.numberOfChannels then (tb12.getChannelData ch)[i]?
            else some (Sample.val 0)) ∧
      (∀ i, tb12.length ≤ i → i < tb12.length + tb345.length →
        ((concatPair tb12 tb345).getChannelData ch)[i]?
          = if ch < tb345.numberOfChannels then (tb345.getChannelData ch)[i - tb12.length]?
            else some (Sample.val 0))) ∧
    (∀ (c : AudioBuffer) (rest : List AudioBuffer),
      concat tb12 tb345 (c :: rest) = concat (concatPair tb12 tb345) c rest)) :=
  ⟨by decide, by decide, c5_concat_spec tb12 tb345 (by decide) (by decide)⟩

/-- Modelled from the spec: the external audio-buffer constructor invoked as
`new AudioBuffer(length - buffer.length)` in `resize` of src/index.js.  The
audio-buffer package is a collaborator of this library and its source is not
part of this repository; §4.5 of the specification describes the buffer
constructed here as "a newly constructed zero buffer of length
(length - buffer.length) at the same channel count/sample rate", and the
collaborator allocates zero-initialised channel arrays.  The construction is
therefore modelled as a zero-filled buffer of the given shape. -/
def newZeroBuffer (channels len : Nat) (rate : ℚ) : AudioBuffer :=
  { data := List.replicate channels (List.replicate len (Sample.val 0)),
    sampleRate := rate }

/-- Function `resize(buffer, length)` of src/index.js: shrink via `slice`, grow via
concatenation with a zero buffer (see `newZeroBuffer` for the modelling of
the external constructor call in the grow branch). -/
def resize (buffer : AudioBuffer) (len : Nat) : AudioBuffer :=
  if len < buffer.length then (slice buffer 0 (some (len : Int))).1
  else concatPair buffer
    (newZeroBuffer buffer.numberOfChannels (len - buffer.length) buffer.sampleRate)

theorem newZeroBuffer_numberOfChannels (c l : Nat) (r : ℚ) :
    (newZeroBuffer c l r).numberOfChannels = c := by
  simp [newZeroBuffer, AudioBuffer.numberOfChannels]

theorem newZeroBuffer_length (c l : Nat) (r : ℚ) (hc : 0 < c) :
    (newZeroBuffer c l r).length = l := by
  unfold newZeroBuffer AudioBuffer.length
  cases c with
  | zero => omega
  | succ n => simp

theorem newZeroBuffer_getChannelData (c l : Nat) (r : ℚ) (ch : Nat) (hch : ch < c) :
    (newZeroBuffer c l r).getChannelData ch = List.replicate l (Sample.val 0) := by
  unfold newZeroBuffer AudioBuffer.getChannelData
  rw [List.getD_eq_getElem?_getD, List.getElem?_replicate, if_pos hch]
  rfl

theorem newZeroBuffer_wf (c l : Nat) (r : ℚ) : (newZeroBuffer c l r).wf = true := by
  cases c with
  | zero => rfl
  | succ n =>
    unfold AudioBuffer.wf
    rw [List.all_eq_true]
    intro ch hmem
    have hch : ch = List.replicate l (Sample.val 0) := List.eq_of_mem_replicate hmem
    rw [hch, newZeroBuffer_length _ _ _ (Nat.succ_pos n), List.length_replicate]
    simp

/-- C1: for a well-formed buffer `b` with at least one channel and `n` at
least `b.length`, `resize b n` is the concatenation of `b` with a zero
buffer of length `n - b.length` at `b`'s channel count and sample rate: it
keeps the channel count and sample rate, has length `n`, agrees with `b` on
the first `b.length` samples of every channel, and is `0` from `b.length`
on. -/
theorem c1_resize_grow (b : AudioBuffer) (n : Nat) (hwf : b.wf = true)
    (hch : 0 < b.numberOfChannels) (hn : b.length ≤ n) :
    (resize b n).numberOfChannels = b.numberOfChannels ∧
    (resize b n).sampleRate = b.sampleRate ∧
    (resize b n).length = n ∧
    (∀ ch, ch < b.numberOfChannels → ∀ i, i < b.length →
      ((resize b n).getChannelData ch)[i]? = (b.getChannelData ch)[i]?) ∧
    (∀ ch, ch < b.numberOfChannels → ∀ i, b.length ≤ i → i < n →
      ((resize b n).getChannelData ch)[i]? = some (Sample.val 0)) ∧
    resize b n = concatPair b
      (newZeroBuffer b.numberOfChannels (n - b.length) b.sampleRate) := by
  have hbranch : resize b n = concatPair b
      (newZeroBuffer b.numberOfChannels (n - b.length) b.sampleRate) := by
    unfold resize
    rw [if_neg (by omega)]
  have hzwf := newZeroBuffer_wf b.numberOfChannels (n - b.length) b.sampleRate
  have hzch := newZeroBuffer_numberOfChannels b.numberOfChannels (n - b.length) b.sampleRate
  have hzlen := newZeroBuffer_length b.numberOfChannels (n - b.length) b.sampleRate hch
  have hmax : max b.numberOfChannels
      (newZeroBuffer b.numberOfChannels (n - b.length) b.sampleRate).numberOfChannels
      = b.numberOfChannels := by
    rw [hzch]
    exact Nat.max_self _
  have hcontent : ∀ ch, ch < b.numberOfChannels →
      (resize b n).getChannelData ch
        = b.getChannelData ch ++ List.replicate (n - b.length) (Sample.val 0) := by
    intro ch hc
    rw [hbranch, concatPair_channel b _ hwf hzwf ch (by rw [hmax]; exact hc),
      if_pos hc, if_pos (by rw [hzch]; exact hc),
      newZeroBuffer_getChannelData _ _ _ ch hc]
  refine ⟨?_, ?_, ?_, ?_, ?_, hbranch⟩
  · rw [hbranch, concatPair_numberOfChannels, hmax]
  · rw [hbranch, concatPair_sampleRate]
    exact max_self _
  · rw [hbranch, concatPair_length b _ hwf hzwf, hzlen]
    omega
  · intro ch hc i hi
    rw [hcontent ch hc, List.getElem?_append, wf_channel_length hwf hc, if_pos hi]
  · intro ch hc i h1 h2
    rw [hcontent ch hc, List.getElem?_append, wf_channel_length hwf hc,
      if_neg (by omega), List.getElem?_replicate, if_pos (by omega)]

theorem c1_resize_grow_witness :
    (AudioBuffer.wf tb12 = true) ∧ (0 < tb12.numberOfChannels) ∧ (tb12.length ≤ 5) ∧
    ((resize tb12 5).numberOfChannels = tb12.numberOfChannels ∧
    (resize tb12 5).sampleRate = tb12.sampleRate ∧
    (resize tb12 5).length = 5 ∧
    (∀ ch, ch < tb12.numberOfChannels → ∀ i, i < tb12.length →
      ((resize tb12 5).getChannelData ch)[i]? = (tb12.getChannelData ch)[i]?) ∧
    (∀ ch, ch < tb12.numberOfChannels → ∀ i, tb12.length ≤ i → i < 5 →
      ((resize tb12 5).getChannelData ch)[i]? = some (Sample.val 0)) ∧
    resize tb12 5 = concatPair tb12
      (newZeroBuffer tb12.numberOfChannels (5 - tb12.length) tb12.sampleRate)) :=
  ⟨by decide, by decide, by decide,
   c1_resize_grow tb12 5 (by decide) (by decide) (by decide)⟩

/-- JavaScript remainder `a % l` for a natural modulus: the result carries
the sign of the dividend (unlike the Euclidean mod). -/
def jsRem (a : Int) (l : Nat) : Int :=
  if a < 0 then -((-a) % (l : Int)) else a % (l : Int)

/-- A JavaScript write `cData[idx] = v` on a typed array with an integer
index: an out-of-range — in particular negative — index is ignored. -/
def setJs (xs : List Sample) (idx : Int) (v : Sample) : List Sample :=
  if idx < 0 then xs else xs.set idx.toNat v

/-- The write index of one `rotate` step of src/index.js:
`idx = (offset + (offset + i < 0 ? l + i : i)) % l` with JavaScript
remainder semantics. -/
def rotateIdx (offset : Int) (l : Nat) (i : Nat) : Int :=
  jsRem (offset + (if offset + (i : Int) < 0 then (l : Int) + (i : Int)
    else (i : Int))) l

/-- The read `srcData[i]` of a `rotate` step (always in range, since `i`
runs below the snapshot's length). -/
def snapRead (src : List Sample) (i : Nat) : Sample :=
  src.getD i (Sample.val 0)

/-- One channel of `rotate` of src/index.js: the channel is snapshotted
(`var srcData = cData.slice()`) and for each `i` in ascending order the
snapshot's sample `i` is written into the live array at
`idx = (offset + (offset + i < 0 ? l + i : i)) % l`, with JavaScript
remainder semantics; a write at a negative `idx` is dropped by the typed
array. -/
def rotateChan (offset : Int) (cData : List Sample) : List Sample :=
  let srcData := cData
  let l := cData.length
  (List.range l).foldl
    (fun (d : List Sample) (i : Nat) =>
      setJs d (rotateIdx offset l i) (snapRead srcData i))
    cData

/-- Function `rotate(buffer, offset)` of src/index.js: every channel is rotated in
place and the mutated buffer is returned. -/
def rotate (buffer : AudioBuffer) (offset : Int) : AudioBuffer :=
  { data := buffer.data.map (fun cData => rotateChan offset cData),
    sampleRate := buffer.sampleRate }

theorem setJs_length (xs : List Sample) (idx : Int) (v : Sample) :
    (setJs xs idx v).length = xs.length := by
  unfold setJs
  split
  · rfl
  · exact List.length_set xs idx.toNat v

theorem foldl_write_length (F : Nat → Int) (V : Nat → Sample) :
    ∀ (is : List Nat) (d : List Sample),
      (is.foldl (fun d i => setJs d (F i) (V i)) d).length = d.length := by
  intro is
  induction is with
  | nil => intro d; rfl
  | cons x xs ih =>
    intro d
    rw [List.foldl_cons, ih, setJs_length]

theorem foldl_write_getElem? (F : Nat → Int) (V : Nat → Sample) :
    ∀ (is : List Nat) (d : List Sample) (j : Nat), j < d.length →
      (is.foldl (fun d i => setJs d (F i) (V i)) d)[j]?
        = (match is.reverse.find? (fun i => F i == (j : Int)) with
           | some i => some (V i)
           | none => d[j]?) := by
  intro is
  induction is with
  | nil => intro d j hj; rfl
  | cons x xs ih =>
    intro d j hj
    rw [List.foldl_cons,
      ih (setJs d (F x) (V x)) j (by rw [setJs_length]; exact hj),
      List.reverse_cons, List.find?_append]
    cases hfind : xs.reverse.find? (fun i => F i == (j : Int)) with
    | some i => rfl
    | none =>
      rw [Option.none_or]
      by_cases hx : F x = (j : Int)
      · have hfx : List.find? (fun i => F i == (j : Int)) [x] = some x :=
          List.find?_cons_of_pos _ (by simp [hx])
        rw [hfx]
        show (setJs d (F x) (V x))[j]? = some (V x)
        unfold setJs
        have ht : (F x).toNat = j := by omega
        rw [if_neg (by omega), List.getElem?_set, ht, if_pos rfl, if_pos hj]
      · have hfx : List.find? (fun i => F i == (j : Int)) [x] = none := by
          rw [List.find?_cons_of_neg _ (by simp [hx])]
          rfl
        rw [hfx]
        show (setJs d (F x) (V x))[j]? = d[j]?
        unfold setJs
        split
        · rfl
        · next hge =>
          rw [List.getElem?_set, if_neg (by omega)]

theorem find?_unique (p : Nat → Bool) (i0 : Nat) :
    ∀ (is : List Nat), i0 ∈ is → p i0 = true →
      (∀ x ∈ is, p x = true → x = i0) → is.find? p = some i0 := by
  intro is
  induction is with
  | nil => intro h; exact absurd h (List.not_mem_nil i0)
  | cons x xs ih =>
    intro hmem hp huniq
    by_cases hx : p x = true
    · have hxi : x = i0 := huniq x (List.mem_cons_self x xs) hx
      rw [List.find?_cons_of_pos _ hx, hxi]
    · have hmem' : i0 ∈ xs := by
        cases List.mem_cons.mp hmem with
        | inl h => exact absurd (h ▸ hp) hx
        | inr h => exact h
      rw [List.find?_cons_of_neg _ hx]
      exact ih hmem' hp (fun y hy hpy => huniq y (List.mem_cons_of_mem x hy) hpy)

theorem emod_sub_emod (a b n : Int) : (a % n - b) % n = (a - b) % n := by
  rw [Int.sub_emod, Int.emod_emod_of_dvd a dvd_rfl, ← Int.sub_emod]

/-- For `-l ≤ offset` the source's index expression is the Euclidean
`(i + offset) mod l`. -/
theorem rotateIdx_eq (l : Nat) (offset : Int) (hoff : -(l : Int) ≤ offset)
    (i : Nat) (hi : i < l) :
    rotateIdx offset l i = ((i : Int) + offset) % (l : Int) := by
  unfold rotateIdx
  by_cases hneg : offset + (i : Int) < 0
  · rw [if_pos hneg]
    have hv0 : (0 : Int) ≤ offset + ((l : Int) + i) := by omega
    have hvl : offset + ((l : Int) + i) < (l : Int) := by omega
    unfold jsRem
    rw [if_neg (by omega), Int.emod_eq_of_lt hv0 hvl]
    rw [← Int.add_mul_emod_self_left ((i : Int) + offset) (l : Int) 1]
    have h2 : (i : Int) + offset + (l : Int) * 1 = offset + ((l : Int) + i) := by ring
    rw [h2, Int.emod_eq_of_lt hv0 hvl]
  · rw [if_neg hneg]
    unfold jsRem
    rw [if_neg (by omega)]
    have h2 : offset + (i : Int) = (i : Int) + offset := by ring
    rw [h2]

theorem rotateChan_length (offset : Int) (chan : List Sample) :
    (rotateChan offset chan).length = chan.length :=
  foldl_write_length (rotateIdx offset chan.length) (snapRead chan)
    (List.range chan.length) chan

/-- For `-l ≤ offset` the rotated channel at index `j` holds the original
sample at index `(j - offset) mod l`. -/
theorem rotateChan_getElem? (offset : Int) (chan : List Sample)
    (hoff : -(chan.length : Int) ≤ offset) (j : Nat) (hj : j < chan.length) :
    (rotateChan offset chan)[j]?
      = chan[(((j : Int) - offset) % (chan.length : Int)).toNat]? := by
  have hl0 : 0 < chan.length := by omega
  have hlz : (chan.length : Int) ≠ 0 := by omega
  have hfold := foldl_write_getElem? (rotateIdx offset chan.length) (snapRead chan)
    (List.range chan.length) chan j hj
  have hrw : (rotateChan offset chan)[j]?
      = ((List.range chan.length).foldl
          (fun (d : List Sample) (i : Nat) =>
            setJs d (rotateIdx offset chan.length i) (snapRead chan i))
          chan)[j]? := rfl
  rw [hrw, hfold]
  have hmod0 : (0 : Int) ≤ ((j : Int) - offset) % (chan.length : Int) :=
    Int.emod_nonneg _ hlz
  have hmodl : ((j : Int) - offset) % (chan.length : Int) < (chan.length : Int) :=
    Int.emod_lt_of_pos _ (by omega)
  have hi0 : (((j : Int) - offset) % (chan.length : Int)).toNat < chan.length := by
    omega
  have hcast : ((((j : Int) - offset) % (chan.length : Int)).toNat : Int)
      = ((j : Int) - offset) % (chan.length : Int) := Int.toNat_of_nonneg hmod0
  have hp : (fun i => rotateIdx offset chan.length i == (j : Int))
      (((j : Int) - offset) % (chan.length : Int)).toNat = true := by
    simp only [beq_iff_eq]
    rw [rotateIdx_eq _ _ hoff _ hi0, hcast, Int.emod_add_emod]
    have h3 : (j : Int) - offset + offset = (j : Int) := by ring
    rw [h3, Int.emod_eq_of_lt (by omega) (by omega)]
  have hfind : (List.range chan.length).reverse.find?
      (fun i => rotateIdx offset chan.length i == (j : Int))
      = some (((j : Int) - offset) % (chan.length : Int)).toNat := by
    refine find?_unique _ _ _ ?_ hp ?_
    · rw [List.mem_reverse, List.mem_range]
      exact hi0
    · intro x hx hpx
      have hxl : x < chan.length := List.mem_range.mp (List.mem_reverse.mp hx)
      simp only [beq_iff_eq] at hpx
      rw [rotateIdx_eq _ _ hoff _ hxl] at hpx
      have h4 : ((j : Int) - offset) % (chan.length : Int) = (x : Int) := by
        rw [← hpx, emod_sub_emod]
        have h5 : (x : Int) + offset - offset = (x : Int) := by ring
        rw [h5, Int.emod_eq_of_lt (by omega) (by omega)]
      omega
  rw [hfind]
  show some (snapRead chan (((j : Int) - offset) % (chan.length : Int)).toNat) = _
  unfold snapRead
  rw [List.getD_eq_getElem?_getD, List.getElem?_eq_getElem hi0]
  rfl

theorem rotate_getChannelData (b : AudioBuffer) (offset : Int) (ch : Nat)
    (hch : ch < b.numberOfChannels) :
    (rotate b offset).getChannelData ch = rotateChan offset (b.getChannelData ch) := by
  simp only [rotate, AudioBuffer.getChannelData]
  rw [List.getD_eq_getElem?_getD, List.getD_eq_getElem?_getD, List.getElem?_map,
    List.getElem?_eq_getElem hch]
  rfl

/-- C3 (amended): for every well-formed buffer and every integer offset with
`-length ≤ offset`, after `rotate(buffer, offset)` the sample originally at
index `i` of every channel sits at index `(i + offset) mod length`,
normalised into `[0, length)`; for `offset < -length` the source drops some
writes and the law fails. -/
theorem c3_rotate_moves (b : AudioBuffer) (offset : Int) (hwf : b.wf = true)
    (hoff : -(b.length : Int) ≤ offset) :
    ∀ ch, ch < b.numberOfChannels → ∀ i, i < b.length →
      ((rotate b offset).getChannelData ch)[(((i : Int) + offset) % (b.length : Int)).toNat]?
        = (b.getChannelData ch)[i]? := by
  intro ch hch i hi
  have hlen : (b.getChannelData ch).length = b.length := wf_channel_length hwf hch
  have hl0 : 0 < b.length := by omega
  have hmod0 : (0 : Int) ≤ ((i : Int) + offset) % (b.length : Int) :=
    Int.emod_nonneg _ (by omega)
  have hmodl : ((i : Int) + offset) % (b.length : Int) < (b.length : Int) :=
    Int.emod_lt_of_pos _ (by omega)
  have hj : (((i : Int) + offset) % (b.length : Int)).toNat
      < (b.getChannelData ch).length := by omega
  rw [rotate_getChannelData b offset ch hch,
    rotateChan_getElem? offset (b.getChannelData ch) (by rw [hlen]; exact hoff) _ hj]
  have hcast : (((((i : Int) + offset) % (b.length : Int)).toNat : Int))
      = ((i : Int) + offset) % (b.length : Int) := Int.toNat_of_nonneg hmod0
  have hidx : ((((((i : Int) + offset) % (b.length : Int)).toNat : Int)) - offset)
      % ((b.getChannelData ch).length : Int) = (i : Int) := by
    rw [hlen, hcast, emod_sub_emod]
    have h5 : (i : Int) + offset - offset = (i : Int) := by ring
    rw [h5, Int.emod_eq_of_lt (by omega) (by omega)]
  rw [hidx, Int.toNat_natCast]

theorem c3_rotate_moves_witness :
    (AudioBuffer.wf tb1234 = true) ∧ (-(tb1234.length : Int) ≤ 1) ∧
    (∀ ch, ch < tb1234.numberOfChannels → ∀ i, i < tb1234.length →
      ((rotate tb1234 1).getChannelData ch)[(((i : Int) + 1) % (tb1234.length : Int)).toNat]?
        = (tb1234.getChannelData ch)[i]?) :=
  ⟨by decide, by decide, c3_rotate_moves tb1234 1 (by decide) (by decide)⟩

/-- C3 counterexample: on the 1-channel buffer `[1, 2, 3, 4]` with
`offset = -5`, the source computes JavaScript `(-1) % 4 = -1` for old index
`0` and drops the write, yielding `[2, 3, 4, 4]`; the sample originally at
index `0` (the value `1`) is not at `(0 - 5) mod 4 = 3`. -/
theorem c3_rotate_counterexample :
    ((rotate tb1234 (-5)).getChannelData 0)[(((0 : Int) + (-5)) % ((tb1234.length : Int))).toNat]?
      ≠ (tb1234.getChannelData 0)[0]? ∧
    (rotate tb1234 (-5)).getChannelData 0
      = [Sample.val 2, Sample.val 3, Sample.val 4, Sample.val 4] := by
  constructor
  · decide
  · decide

theorem map_eq_self_of_mem (f : List Sample → List Sample) :
    ∀ (l : List (List Sample)), (∀ x ∈ l, f x = x) → l.map f = l := by
  intro l
  induction l with
  | nil => intro h; rfl
  | cons x xs ih =>
    intro h
    rw [List.map_cons, h x (List.mem_cons_self x xs),
      ih (fun y hy => h y (List.mem_cons_of_mem x hy))]

theorem rotateChan_roundtrip (chan : List Sample) (k : Int)
    (h1 : -(chan.length : Int) ≤ k) (h2 : k ≤ (chan.length : Int)) :
    rotateChan (-k) (rotateChan k chan) = chan := by
  apply List.ext_getElem?
  intro j
  have hlen1 : (rotateChan k chan).length = chan.length := rotateChan_length k chan
  by_cases hj : j < chan.length
  · have hj' : j < (rotateChan k chan).length := by omega
    rw [rotateChan_getElem? (-k) (rotateChan k chan) (by omega) j hj']
    have hl0 : (0 : Int) < (chan.length : Int) := by omega
    have hm0 : (0 : Int) ≤ ((j : Int) - -k) % (((rotateChan k chan).length : Int)) :=
      Int.emod_nonneg _ (by omega)
    have hml : ((j : Int) - -k) % (((rotateChan k chan).length : Int))
        < ((rotateChan k chan).length : Int) := Int.emod_lt_of_pos _ (by omega)
    have hmlt : (((j : Int) - -k) % (((rotateChan k chan).length : Int))).toNat
        < chan.length := by omega
    rw [rotateChan_getElem? k chan h1 _ hmlt]
    have hcast : ((((j : Int) - -k) % (((rotateChan k chan).length : Int))).toNat : Int)
        = ((j : Int) - -k) % ((chan.length : Int)) := by
      rw [Int.toNat_of_nonneg hm0, hlen1]
    have hidx : (((((j : Int) - -k) % (((rotateChan k chan).length : Int))).toNat : Int) - k)
        % ((chan.length : Int)) = (j : Int) := by
      rw [hcast, emod_sub_emod]
      have h5 : (j : Int) - -k - k = (j : Int) := by ring
      rw [h5, Int.emod_eq_of_lt (by omega) (by omega)]
    rw [hidx, Int.toNat_natCast]
  · have hlen2 : (rotateChan (-k) (rotateChan k chan)).length = chan.length := by
      rw [rotateChan_length, hlen1]
    rw [List.getElem?_eq_none (by omega), List.getElem?_eq_none (by omega)]

/-- C2 (amended): for every non-empty well-formed buffer `b` and every
integer `k` with `-length ≤ k ≤ length`, `rotate(rotate(b, k), -k)` has
channel data identical to `b`'s (hence `equal` to `b` whenever `b` holds no
NaN); for `|k|` beyond the channel length the round trip can fail, because
the source drops writes at negative JavaScript remainders. -/
theorem c2_rotate_roundtrip (b : AudioBuffer) (k : Int) (hwf : b.wf = true)
    (hne : 0 < b.length) (h1 : -(b.length : Int) ≤ k) (h2 : k ≤ (b.length : Int)) :
    (rotate (rotate b k) (-k)).data = b.data ∧
    (rotate (rotate b k) (-k)).sampleRate = b.sampleRate := by
  refine ⟨?_, rfl⟩
  show ((b.data.map fun cData => rotateChan k cData).map
    fun cData => rotateChan (-k) cData) = b.data
  rw [List.map_map]
  refine map_eq_self_of_mem _ b.data ?_
  intro chan hmem
  have hlen : chan.length = b.length := by
    have h := (List.all_eq_true).mp hwf chan hmem
    simpa using h
  show rotateChan (-k) (rotateChan k chan) = chan
  exact rotateChan_roundtrip chan k (by omega) (by omega)

theorem c2_rotate_roundtrip_witness :
    (AudioBuffer.wf tb12 = true) ∧ (0 < tb12.length) ∧
    (-(tb12.length : Int) ≤ 2) ∧ ((2 : Int) ≤ (tb12.length : Int)) ∧
    ((rotate (rotate tb12 2) (-2)).data = tb12.data ∧
      (rotate (rotate tb12 2) (-2)).sampleRate = tb12.sampleRate) :=
  ⟨by decide, by decide, by decide, by decide,
   c2_rotate_roundtrip tb12 2 (by decide) (by decide) (by decide) (by decide)⟩

/-- C2 counterexample: for the 1-channel buffer `[1, 2]` and `k = 3` (so
`|k|` exceeds the length, a case the claim includes), the round trip
`rotate(rotate(b, 3), -3)` yields `[1, 1]` — the write at JavaScript index
`(-1) % 2 = -1` is dropped — and `equal` decides it different from `b`. -/
theorem c2_rotate_counterexample :
    equalPair (rotate (rotate tb12 3) (-3)) tb12 = false ∧
    (rotate (rotate tb12 3) (-3)).data = [[Sample.val 1, Sample.val 1]] := by
  constructor
  · decide
  · decide

/-- One channel of `shift` of src/index.js.  For `offset > 0` the source
scans `for (var i = cData.length - offset; i--;) cData[i+offset] = cData[i]`,
modelled here on the domain `offset ≤ cData.length`, where the loop runs
`i = cData.length-offset-1, …, 0`; for `offset > cData.length` the loop
starts with a negative `i` and the condition `i--` never becomes falsy, so
the JavaScript call does not terminate and there is no result to model.
For `offset <= 0` the source scans
`for (var i = -offset, l = cData.length - offset; i < l; i++)
cData[i+offset] = cData[i] || 0`; both branches read the live array. -/
def shiftChan (offset : Int) (cData : List Sample) : List Sample :=
  if 0 < offset then
    ((List.range (cData.length - offset.toNat)).reverse).foldl
      (fun (d : List Sample) (i : Nat) =>
        d.set (i + offset.toNat) (d.getD i (Sample.val 0)))
      cData
  else
    (List.range cData.length).foldl
      (fun (d : List Sample) (t : Nat) =>
        d.set t (jsOrZero (d[t + (-offset).toNat]?)))
      cData

/-- Function `shift(buffer, offset)` of src/index.js: every channel is shifted in
place and the mutated buffer is returned. -/
def shift (buffer : AudioBuffer) (offset : Int) : AudioBuffer :=
  { data := buffer.data.map (fun cData => shiftChan offset cData),
    sampleRate := buffer.sampleRate }

theorem shift_pos_fold (o : Nat) :
    ∀ (n : Nat) (d : List Sample), n + o ≤ d.length →
      ∀ j,
      (((List.range n).reverse).foldl
        (fun (d : List Sample) (i : Nat) =>
          d.set (i + o) (d.getD i (Sample.val 0))) d)[j]?
        = if o ≤ j ∧ j < n + o then d[j - o]? else d[j]? := by
  intro n
  induction n with
  | zero =>
    intro d hd j
    have hc : ¬ (o ≤ j ∧ j < 0 + o) := by omega
    simp only [List.range_zero, List.reverse_nil, List.foldl_nil]
    rw [if_neg hc]
  | succ n ih =>
    intro d hd j
    have hrev : (List.range (n + 1)).reverse = n :: (List.range n).reverse := by
      rw [List.range_succ, List.reverse_append]
      rfl
    rw [hrev, List.foldl_cons,
      ih (d.set (n + o) (d.getD n (Sample.val 0)))
        (by rw [List.length_set]; omega) j]
    by_cases hj1 : o ≤ j ∧ j < n + o
    · rw [if_pos hj1, if_pos (by omega), List.getElem?_set, if_neg (by omega)]
    · by_cases hj2 : j = n + o
      · rw [if_neg (by omega), if_pos (by omega)]
        subst hj2
        rw [List.getElem?_set, if_pos rfl, if_pos (by omega)]
        have h5 : n + o - o = n := by omega
        rw [h5, List.getD_eq_getElem?_getD, List.getElem?_eq_getElem (by omega)]
        rfl
      · rw [if_neg (by omega), if_neg (by omega), List.getElem?_set, if_neg (by omega)]

theorem shift_nonpos_fold (a : Nat) :
    ∀ (t : Nat) (d : List Sample), t ≤ d.length →
      ∀ j,
      ((List.range t).foldl
        (fun (d : List Sample) (t : Nat) =>
          d.set t (jsOrZero (d[t + a]?))) d)[j]?
        = if j < t then some (jsOrZero (d[j + a]?)) else d[j]? := by
  intro t
  induction t with
  | zero =>
    intro d hd j
    simp only [List.range_zero, List.foldl_nil]
    rw [if_neg (by omega)]
  | succ t ih =>
    intro d hd j
    rw [List.range_succ, List.foldl_append, List.foldl_cons, List.foldl_nil]
    have hread : ((List.range t).foldl
        (fun (d : List Sample) (t : Nat) => d.set t (jsOrZero (d[t + a]?))) d)[t + a]?
        = d[t + a]? := by
      rw [ih d (by omega) (t + a), if_neg (by omega)]
    rw [List.getElem?_set]
    by_cases hj : t = j
    · subst hj
      have hlen : ((List.range t).foldl
          (fun (d : List Sample) (t : Nat) => d.set t (jsOrZero (d[t + a]?))) d).length
          = d.length := by
        clear hread ih hd
        induction t with
        | zero => rfl
        | succ t iht =>
          rw [List.range_succ, List.foldl_append, List.foldl_cons, List.foldl_nil,
            List.length_set, iht]
      rw [if_pos rfl, hread, if_pos (by omega), if_pos (by omega)]
    · rw [if_neg hj, ih d (by omega) j]
      by_cases hjt : j < t
      · rw [if_pos hjt, if_pos (by omega)]
      · rw [if_neg hjt, if_neg (by omega)]

theorem shiftChan_pos_getElem? (offset : Int) (chan : List Sample)
    (hpos : 0 < offset) (hle : offset ≤ (chan.length : Int))
    (j : Nat) (hj : j < chan.length) :
    (shiftChan offset chan)[j]?
      = if (j : Int) < offset then chan[j]? else chan[j - offset.toNat]? := by
  unfold shiftChan
  rw [if_pos hpos,
    shift_pos_fold offset.toNat (chan.length - offset.toNat) chan (by omega) j]
  by_cases hc : offset.toNat ≤ j
  · rw [if_pos ⟨hc, by omega⟩, if_neg (by omega)]
  · rw [if_neg (by omega), if_pos (by omega)]

theorem shiftChan_nonpos_getElem? (offset : Int) (chan : List Sample)
    (hnp : offset ≤ 0) (j : Nat) (hj : j < chan.length) :
    (shiftChan offset chan)[j]?
      = some (jsOrZero (chan[j + (-offset).toNat]?)) := by
  unfold shiftChan
  rw [if_neg (by omega),
    shift_nonpos_fold (-offset).toNat chan.length chan (Nat.le_refl _) j,
    if_pos hj]

theorem shift_getChannelData (b : AudioBuffer) (offset : Int) (ch : Nat)
    (hch : ch < b.numberOfChannels) :
    (shift b offset).getChannelData ch = shiftChan offset (b.getChannelData ch) := by
  simp only [shift, AudioBuffer.getChannelData]
  rw [List.getD_eq_getElem?_getD, List.getD_eq_getElem?_getD, List.getElem?_map,
    List.getElem?_eq_getElem hch]
  rfl

/-- C4 (amended): `shift` is asymmetric.  For `0 < offset ≤ length`, sample
`j` of every channel holds the stale original sample for `j < offset` and
the original sample `j - offset` for `j ≥ offset` (no zero-filling of the
leading positions); for `offset ≤ 0`, sample `j` holds `data[j - offset] || 0`
— the original sample shifted left, with `0` substituted both for reads past
the end and for falsy reads (NaN, `0`), so the vacated trailing positions
are zero-filled.  (For `offset > length` the source's loop never terminates,
so that case is outside the model.) -/
theorem c4_shift_asymmetric (b : AudioBuffer) (offset : Int) (hwf : b.wf = true)
    (hle : offset ≤ (b.length : Int)) :
    (0 < offset →
      ∀ ch, ch < b.numberOfChannels → ∀ j, j < b.length →
        ((shift b offset).getChannelData ch)[j]?
          = if (j : Int) < offset then (b.getChannelData ch)[j]?
            else (b.getChannelData ch)[j - offset.toNat]?) ∧
    (offset ≤ 0 →
      ∀ ch, ch < b.numberOfChannels → ∀ j, j < b.length →
        ((shift b offset).getChannelData ch)[j]?
          = some (jsOrZero ((b.getChannelData ch)[j + (-offset).toNat]?))) := by
  constructor
  · intro hpos ch hch j hj
    have hlen : (b.getChannelData ch).length = b.length := wf_channel_length hwf hch
    rw [shift_getChannelData b offset ch hch,
      shiftChan_pos_getElem? offset _ hpos (by omega) j (by omega)]
  · intro hnp ch hch j hj
    have hlen : (b.getChannelData ch).length = b.length := wf_channel_length hwf hch
    rw [shift_getChannelData b offset ch hch,
      shiftChan_nonpos_getElem? offset _ hnp j (by omega)]

theorem c4_shift_asymmetric_witness :
    (AudioBuffer.wf tb123 = true) ∧ ((1 : Int) ≤ (tb123.length : Int)) ∧
    ((0 < (1 : Int) →
      ∀ ch, ch < tb123.numberOfChannels → ∀ j, j < tb123.length →
        ((shift tb123 1).getChannelData ch)[j]?
          = if (j : Int) < 1 then (tb123.getChannelData ch)[j]?
            else (tb123.getChannelData ch)[j - (1 : Int).toNat]?) ∧
    ((1 : Int) ≤ 0 →
      ∀ ch, ch < tb123.numberOfChannels → ∀ j, j < tb123.length →
        ((shift tb123 1).getChannelData ch)[j]?
          = some (jsOrZero ((tb123.getChannelData ch)[j + (-(1 : Int)).toNat]?)))) :=
  ⟨by decide, by decide, c4_shift_asymmetric tb123 1 (by decide) (by decide)⟩

def tbNan : AudioBuffer :=
  { data := [[Sample.nan, Sample.val 2]], sampleRate := 44100 }

/-- C4 counterexample: the claim's `offset ≤ 0` branch substitutes `0` only
when the source index is out of range, so on `[NaN, 2]` it predicts that
`shift(b, 0)` stores `data[0] = NaN` at index 0; the code stores
`data[0] || 0`, i.e. `0`. -/
theorem c4_shift_counterexample :
    ((shift tbNan 0).getChannelData 0)[0]? = some (Sample.val 0) ∧
    ¬ ((shift tbNan 0).getChannelData 0)[0]? = some Sample.nan := by
  constructor
  · decide
  · decide

/-- C10: for every well-formed buffer and `offset ≤ 0` (including `0`),
`shift` stores `cData[i] || 0` at every destination, so any NaN read is
written back as `0`; in particular `shift(b, 0)` replaces every NaN sample
by `0` and leaves every other sample unchanged (it is not the identity on a
buffer containing NaN). -/
theorem c10_shift_orzero (b : AudioBuffer) (offset : Int) (hwf : b.wf = true)
    (hnp : offset ≤ 0) :
    (∀ ch, ch < b.numberOfChannels → ∀ j, j < b.length →
      ((shift b offset).getChannelData ch)[j]?
        = some (jsOrZero ((b.getChannelData ch)[j + (-offset).toNat]?))) ∧
    (∀ ch, ch < b.numberOfChannels → ∀ j, j < b.length →
      ((shift b 0).getChannelData ch)[j]?
        = if (b.getChannelData ch)[j]? = some Sample.nan then some (Sample.val 0)
          else (b.getChannelData ch)[j]?) := by
  have hgen : ∀ (off : Int), off ≤ 0 →
      ∀ ch, ch < b.numberOfChannels → ∀ j, j < b.length →
      ((shift b off).getChannelData ch)[j]?
        = some (jsOrZero ((b.getChannelData ch)[j + (-off).toNat]?)) := by
    intro off hoff ch hch j hj
    have hlen : (b.getChannelData ch).length = b.length := wf_channel_length hwf hch
    rw [shift_getChannelData b off ch hch,
      shiftChan_nonpos_getElem? off _ hoff j (by omega)]
  refine ⟨hgen offset hnp, ?_⟩
  intro ch hch j hj
  have hlen : (b.getChannelData ch).length = b.length := wf_channel_length hwf hch
  rw [hgen 0 (by omega) ch hch j hj]
  have hj0 : j + ((-(0 : Int)).toNat) = j := by omega
  rw [hj0]
  cases hread : (b.getChannelData ch)[j]? with
  | none =>
    exact absurd hread (by rw [List.getElem?_eq_getElem (by omega)]; simp)
  | some s =>
    cases s with
    | nan => rw [if_pos rfl]; rfl
    | val a =>
      rw [if_neg (by simp)]
      show some (jsOrZero (some (Sample.val a))) = some (Sample.val a)
      by_cases ha : a = 0
      · simp [jsOrZero, ha]
      · simp [jsOrZero, ha]

theorem c10_shift_orzero_witness :
    (AudioBuffer.wf tbNan = true) ∧ ((0 : Int) ≤ 0) ∧
    ((∀ ch, ch < tbNan.numberOfChannels → ∀ j, j < tbNan.length →
      ((shift tbNan 0).getChannelData ch)[j]?
        = some (jsOrZero ((tbNan.getChannelData ch)[j + (-(0 : Int)).toNat]?))) ∧
    (∀ ch, ch < tbNan.numberOfChannels → ∀ j, j < tbNan.length →
      ((shift tbNan 0).getChannelData ch)[j]?
        = if (tbNan.getChannelData ch)[j]? = some Sample.nan then some (Sample.val 0)
          else (tbNan.getChannelData ch)[j]?)) :=
  ⟨by decide, by decide, c10_shift_orzero tbNan 0 (by decide) (by decide)⟩

end AudioBufferUtils
